import Mathlib

/-!
Verification of the PLK schedule scraper (`scripts/update_matches.py`).

The script fetches the PLK schedule page, splits the extracted text into
per-round segments on `#### N kolejka` markers, extracts fixture candidates
with a line-based regular expression, normalizes the fields, and writes one
snapshot payload. The network fetch, HTML-to-text step and the file write are
external collaborators; the embedding below models the core pipeline from the
extracted text (a list of characters) to the payload, with the two fatal
conditions (`RuntimeError` on zero round markers, `ValueError` from
`datetime`) modelled as `Except` errors: the output file exists iff the
pipeline returns `.ok`.

Strings are modelled as `List Char`. Character classes (`\s`, `\d`, `\W`,
`str.lower`) are modelled on the ASCII range (plus the Polish letters that
occur in the script's own literals); the Unicode extensions of Python's
semantics do not occur in any input considered here.
-/

namespace PLK

/-- Character list of a string literal. -/
def lit (s : String) : List Char := s.data

/-- Python `\s` (and `str.strip`'s whitespace set), ASCII range:
space, tab, newline, vertical tab, form feed, carriage return. -/
def isWS (c : Char) : Bool := c == ' ' || (9 ≤ c.toNat && c.toNat ≤ 13)

/-- Python `\d`, ASCII digits. -/
def isDigitC (c : Char) : Bool := 48 ≤ c.toNat && c.toNat ≤ 57

/-- Python `\w` (ASCII range): letters, digits, underscore. -/
def isWordChar (c : Char) : Bool :=
  (65 ≤ c.toNat && c.toNat ≤ 90) || (97 ≤ c.toNat && c.toNat ≤ 122) ||
    isDigitC c || c == '_'

/-- Python `str.lower` on the characters that occur in the script's
literals: ASCII letters plus the Polish capitals of the header labels. -/
def lowerChar (c : Char) : Char :=
  if 65 ≤ c.toNat && c.toNat ≤ 90 then Char.ofNat (c.toNat + 32)
  else if c == 'Ó' then 'ó'
  else if c == 'Ś' then 'ś'
  else if c == 'Ć' then 'ć'
  else c

/-- Decimal digit character of a value below ten. -/
def digitChar (n : Nat) : Char := Char.ofNat (48 + n)

/-- Numeric value of a decimal digit character. -/
def digitVal (c : Char) : Nat := c.toNat - 48

/-- Python `int` on a string of decimal digits. -/
def nat2 (l : List Char) : Nat := l.foldl (fun a c => 10 * a + digitVal c) 0

/-- Decimal rendering, fuelled so that it is structural (the fuel `n + 1`
always suffices, since the argument shrinks by a factor of ten each step). -/
def natDigitsAux : Nat → Nat → List Char
  | 0, _ => []
  | fuel + 1, n =>
    if n < 10 then [digitChar n]
    else natDigitsAux fuel (n / 10) ++ [digitChar (n % 10)]

/-- Decimal rendering of a natural number, no leading zeros. -/
def natDigits (n : Nat) : List Char := natDigitsAux (n + 1) n

/-- Python `f"{n:02d}"` and the 2-digit fields of `datetime.isoformat`. -/
def pad2 (n : Nat) : List Char :=
  if n < 10 then ['0', digitChar n] else natDigits n

/-- The 4-digit year field of `datetime.isoformat`. -/
def pad4 (n : Nat) : List Char :=
  List.replicate (4 - (natDigits n).length) '0' ++ natDigits n

/-- Value of a string of decimal digit characters (used to invert the
renderings above). -/
def digitsVal (l : List Char) : Nat := l.foldl (fun a c => 10 * a + digitVal c) 0

/-- Python `str.strip()`: drop leading and trailing whitespace. -/
def strip (l : List Char) : List Char :=
  ((l.dropWhile isWS).reverse.dropWhile isWS).reverse

/-- Python `re.sub(r"\s+", " ", ·)`: replace every maximal run of whitespace
with a single space. The flag records whether we are inside a run whose
single space was already emitted. -/
def collapseAux : Bool → List Char → List Char
  | _, [] => []
  | inRun, c :: cs =>
    if isWS c then
      if inRun then collapseAux true cs else ' ' :: collapseAux true cs
    else c :: collapseAux false cs

/-- `clean` of the script: `re.sub(r"\s+", " ", s.strip())`. -/
def clean (l : List Char) : List Char := collapseAux false (strip l)

/-- The head, when present, is not whitespace. -/
def headNotWS : List Char → Bool
  | [] => true
  | c :: _ => !isWS c

/-- The last character, when present, is not whitespace. -/
def lastNotWS (l : List Char) : Bool := headNotWS l.reverse

/-- No two adjacent characters are both whitespace. -/
def noDoubleWS : List Char → Bool
  | c1 :: c2 :: rest => !(isWS c1 && isWS c2) && noDoubleWS (c2 :: rest)
  | _ => true

/-- Every whitespace character is a plain space. -/
def onlySpaceWS (l : List Char) : Bool := l.all (fun c => !isWS c || c == ' ')

/-- No leading and no trailing whitespace. -/
def noEdgeWS (l : List Char) : Bool := headNotWS l && lastNotWS l

/-- The season's earlier calendar year (autumn of season 2025/2026). -/
def seasonEarlierYear : Nat := 2025

/-- The season's later calendar year (spring of season 2025/2026). -/
def seasonLaterYear : Nat := 2026

/-- `infer_year` of the script: `2025 if month >= 7 else 2026`. -/
def infer_year (month : Nat) : Nat := if 7 ≤ month then 2025 else 2026

/-- Gregorian leap year, as `datetime` checks it. -/
def isLeap (y : Nat) : Bool := (y % 4 == 0 && y % 100 != 0) || y % 400 == 0

/-- Days in a month, as `datetime` checks it. -/
def daysInMonth (y m : Nat) : Nat :=
  if m == 2 then (if isLeap y then 29 else 28)
  else if m == 4 || m == 6 || m == 9 || m == 11 then 30
  else 31

/-- The validation `datetime(y, m, d, hh, mm)` performs; a failure is a
`ValueError`. -/
def validDateTime (y m d hh mm : Nat) : Bool :=
  1 ≤ y && y ≤ 9999 && 1 ≤ m && m ≤ 12 && 1 ≤ d && d ≤ daysInMonth y m &&
    hh ≤ 23 && mm ≤ 59

/-- The two fatal conditions of one run: `RuntimeError` when no round marker
is found, `ValueError` out of `datetime` on an invalid date. -/
inductive RunError where
  | noRoundsFound
  | valueError
deriving DecidableEq, Repr

/-- `dt.isoformat(timespec="minutes") + ":00" + TZ` with `TZ = "+01:00"`. -/
def renderIso (y m d hh mm : Nat) : List Char :=
  pad4 y ++ '-' :: (pad2 m ++ '-' :: (pad2 d ++ 'T' :: (pad2 hh ++ ':' ::
    (pad2 mm ++ lit ":00+01:00"))))

/-- `iso_start` of the script: split `"DD.MM"` and `"HH:MM"` into numbers,
infer the year from the month, and build the timestamp; `datetime` raises
`ValueError` on an invalid combination. -/
def iso_start (ddmm hhmm : List Char) : Except RunError (List Char) :=
  let d := nat2 (ddmm.take 2)
  let m := nat2 (ddmm.drop 3)
  let y := infer_year m
  let hh := nat2 (hhmm.take 2)
  let mm := nat2 (hhmm.drop 3)
  if validDateTime y m d hh mm then .ok (renderIso y m d hh mm)
  else .error .valueError

/-- True on `.ok` values. -/
def isOkE {ε α : Type} : Except ε α → Bool
  | .ok _ => true
  | .error _ => false

/-- `safe_id_part` of the script: `re.sub(r"\W+", "", s)[:14]`. -/
def safe_id_part (s : List Char) : List Char := (s.filter isWordChar).take 14

/-- Python `ddmm.replace('.', '')`. -/
def removeDots (l : List Char) : List Char := l.filter (fun c => !(c == '.'))

/-- The derived match identifier:
`f"{round_no:02d}-{ddmm.replace('.','')}-{safe_id_part(home)}-{safe_id_part(away)}"`. -/
def match_id (roundNo : Nat) (ddmm home away : List Char) : List Char :=
  pad2 roundNo ++ '-' :: (removeDots ddmm ++ '-' ::
    (safe_id_part home ++ '-' :: safe_id_part away))

/-- A parsed score. -/
structure Score where
  home : Nat
  away : Nat
deriving DecidableEq, Repr

/-- One attempt of `(\d{1,3})\s*:\s*(\d{1,3})` anchored at the current
position, with the first group taking exactly `k` digits. -/
def scoreGroup (k : Nat) (l : List Char) : Option Score :=
  let d1 := l.take k
  if d1.length == k && d1.all isDigitC then
    match (l.drop k).dropWhile isWS with
    | ':' :: rest =>
      let d2 := ((rest.dropWhile isWS).takeWhile isDigitC).take 3
      if d2.isEmpty then none else some ⟨nat2 d1, nat2 d2⟩
    | _ => none
  else none

/-- The pattern of `parse_score` anchored at the current position; the
greedy first group tries three digits, then two, then one. -/
def scoreAtPos (l : List Char) : Option Score :=
  match scoreGroup 3 l with
  | some s => some s
  | none =>
    match scoreGroup 2 l with
    | some s => some s
    | none => scoreGroup 1 l

/-- `parse_score` of the script: `re.search(r"(\d{1,3})\s*:\s*(\d{1,3})", s)`,
leftmost match, `None` when absent. -/
def parse_score : List Char → Option Score
  | [] => none
  | c :: cs =>
    match scoreAtPos (c :: cs) with
    | some s => some s
    | none => parse_score cs

/-- The broadcaster keywords of the `tv` search, lowercased. -/
def tvKeywords : List (List Char) := [lit "polsat", lit "youtube", lit "emocje"]

/-- Does one of the broadcaster keywords start (case-insensitively) at the
current position? -/
def tvKeyAt (l : List Char) : Bool :=
  tvKeywords.any (fun k => (l.take k.length).map lowerChar == k)

/-- `re.search(r"(Polsat[^\n]*|YouTube[^\n]*|Emocje[^\n]*)", tail, re.IGNORECASE)`:
leftmost keyword occurrence, capturing through the end of its line. -/
def findTv : List Char → Option (List Char)
  | [] => none
  | c :: cs =>
    if tvKeyAt (c :: cs) then some ((c :: cs).takeWhile (fun x => !(x == '\n')))
    else findTv cs

/-- The header labels of the noise filter:
`home.lower().startswith(("gospodarz", "gość", "gosc"))`. -/
def headerLabels : List (List Char) := [lit "gospodarz", lit "gość", lit "gosc"]

/-- Does the (lowercased) name start with one of the header labels? -/
def startsWithAnyHeader (l : List Char) : Bool :=
  headerLabels.any (fun p => p.isPrefixOf l)

/-- Status string of a played fixture. -/
def playedStr : List Char := lit "played"

/-- Status string of a scheduled fixture. -/
def scheduledStr : List Char := lit "scheduled"

/-- One fixture candidate as the per-match regular expression captures it:
the two participant lines, the raw `DD.MM` and `HH:MM` tokens, and the
captured trailing window (`tail`, up to twelve following lines). -/
structure Candidate where
  home : List Char
  away : List Char
  ddmm : List Char
  hhmm : List Char
  tail : List Char
deriving DecidableEq, Repr

/-- One emitted fixture record. -/
structure Fixture where
  id : List Char
  round : Nat
  home : List Char
  away : List Char
  start : List Char
  tv : Option (List Char)
  status : List Char
  score : Option Score
  winner : Option (List Char)
deriving DecidableEq, Repr

/-- The output payload: the fixture count of `meta` and the `matches` array
(the source URL and the wall-clock `updated_at` stamp are external). -/
structure Payload where
  count : Nat
  matches' : List Fixture
deriving DecidableEq, Repr

/-- The per-candidate body of the extraction loop: normalize the names,
silently drop table-header noise, build the timestamp (`datetime` may raise),
search the trailing window for a broadcaster and a score, and assemble the
record. -/
def processCandidate (roundNo : Nat) (c : Candidate) : Except RunError (Option Fixture) :=
  let home := clean c.home
  let away := clean c.away
  if home.isEmpty || away.isEmpty then .ok none
  else if startsWithAnyHeader (home.map lowerChar) then .ok none
  else
    match iso_start c.ddmm c.hhmm with
    | .error e => .error e
    | .ok startIso =>
      let tv := (findTv c.tail).map clean
      let score := parse_score c.tail
      let status := if score.isSome then playedStr else scheduledStr
      let winner : Option (List Char) :=
        match score with
        | some s => some (if s.home > s.away then home else away)
        | none => none
      .ok (some ⟨match_id roundNo c.ddmm home away, roundNo, home, away,
        startIso, tv, status, score, winner⟩)

/-- The extraction loop over one round's candidates; an uncaught `ValueError`
aborts the whole run, skipped candidates contribute nothing. -/
def collectCandidates (roundNo : Nat) : List Candidate → Except RunError (List Fixture)
  | [] => .ok []
  | c :: cs =>
    match processCandidate roundNo c with
    | .error e => .error e
    | .ok none => collectCandidates roundNo cs
    | .ok (some f) =>
      match collectCandidates roundNo cs with
      | .error e => .error e
      | .ok fs => .ok (f :: fs)

/-- Up to `k` repetitions of `(?:\n[^\n]+)`, greedy: the captured text and
the remainder. -/
def grabTail : Nat → List Char → List Char × List Char
  | 0, l => ([], l)
  | k + 1, l =>
    match l with
    | '\n' :: c :: rest =>
      if c == '\n' then ([], l)
      else
        let line := (c :: rest).takeWhile (fun x => !(x == '\n'))
        let after := (c :: rest).drop line.length
        let p := grabTail k after
        ('\n' :: (line ++ p.1), p.2)
    | _ => ([], l)

/-- The per-match pattern anchored at the current position:
`([^\n]+)\n([^\n]+)\n(\d{2}\.\d{2})/\s*(\d{2}:\d{2})((?:\n[^\n]+){0,12})`.
Every greedy piece is deterministic here because its character class is
disjoint from what must follow it. Returns the captures and the remainder
after the match. -/
def matchFixtureAt (l : List Char) : Option (Candidate × List Char) :=
  let home := l.takeWhile (fun c => !(c == '\n'))
  if home.isEmpty then none
  else
    match l.drop home.length with
    | '\n' :: r1 =>
      let away := r1.takeWhile (fun c => !(c == '\n'))
      if away.isEmpty then none
      else
        match r1.drop away.length with
        | '\n' :: r2 =>
          match r2 with
          | d1 :: d2 :: '.' :: m1 :: m2 :: '/' :: r3 =>
            if isDigitC d1 && isDigitC d2 && isDigitC m1 && isDigitC m2 then
              match r3.dropWhile isWS with
              | h1 :: h2 :: ':' :: n1 :: n2 :: r5 =>
                if isDigitC h1 && isDigitC h2 && isDigitC n1 && isDigitC n2 then
                  let p := grabTail 12 r5
                  some (⟨home, away, [d1, d2, '.', m1, m2], [h1, h2, ':', n1, n2],
                    p.1⟩, p.2)
                else none
              | _ => none
            else none
          | _ => none
        | _ => none
    | _ => none

/-- `finditer` of the per-match pattern: scan left to right, resume after
each (never empty) match. The fuel, one unit per character, is enough
because every step strictly shortens the text. -/
def findFixturesAux : Nat → List Char → List Candidate
  | 0, _ => []
  | fuel + 1, l =>
    match l with
    | [] => []
    | _ :: cs =>
      match matchFixtureAt l with
      | some (c, rest) => c :: findFixturesAux fuel rest
      | none => findFixturesAux fuel cs

/-- All candidate matches of one round block, in document order. -/
def findFixtures (l : List Char) : List Candidate := findFixturesAux l.length l

/-- The table-header phrase the script blanks out of each block. -/
def headerRow : List Char := lit "Gospodarz Gość Data spotkania TV Wynik"

/-- Python `str.replace`, left to right, non-overlapping, fuelled one unit
per character (enough: every step strictly shortens the text). -/
def replaceAllAux (pat rep : List Char) : Nat → List Char → List Char
  | 0, l => l
  | fuel + 1, l =>
    match l with
    | [] => []
    | c :: cs =>
      if pat.isPrefixOf l then rep ++ replaceAllAux pat rep fuel (l.drop pat.length)
      else c :: replaceAllAux pat rep fuel cs

/-- Python `str.replace`. -/
def replaceAll (pat rep l : List Char) : List Char := replaceAllAux pat rep l.length l

/-- `block.replace("Gospodarz Gość Data spotkania TV Wynik", " ")`. -/
def stripHeader (b : List Char) : List Char := replaceAll headerRow [' '] b

/-- The round marker pattern `####\s*(\d+)\s*kolejka` anchored at the current
position: the round number and the length of the whole match. -/
def matchMarkerAt (l : List Char) : Option (Nat × Nat) :=
  match l with
  | '#' :: '#' :: '#' :: '#' :: r1 =>
    let ws1 := r1.takeWhile isWS
    let r2 := r1.drop ws1.length
    let digs := r2.takeWhile isDigitC
    if digs.isEmpty then none
    else
      let r3 := r2.drop digs.length
      let ws2 := r3.takeWhile isWS
      let r4 := r3.drop ws2.length
      if (lit "kolejka").isPrefixOf r4 then
        some (nat2 digs, 4 + ws1.length + digs.length + ws2.length + 7)
      else none
  | _ => none

/-- `finditer` of the round marker pattern with positions:
`(start, end, round)` triples in document order. -/
def findMarkersAux : Nat → Nat → List Char → List (Nat × Nat × Nat)
  | 0, _, _ => []
  | fuel + 1, pos, l =>
    match l with
    | [] => []
    | _ :: cs =>
      match matchMarkerAt l with
      | some (rnd, len) => (pos, pos + len, rnd) :: findMarkersAux fuel (pos + len) (l.drop len)
      | none => findMarkersAux fuel (pos + 1) cs

/-- All round markers of the text. -/
def findMarkers (l : List Char) : List (Nat × Nat × Nat) := findMarkersAux l.length 0 l

/-- Slice one block per marker: from the end of its marker to the start of
the next marker (or the end of the text). -/
def segmentsAux (text : List Char) (tlen : Nat) : List (Nat × Nat × Nat) → List (Nat × List Char)
  | [] => []
  | (_, e, rnd) :: rest =>
    let endPos := match rest with
      | (s2, _, _) :: _ => s2
      | [] => tlen
    (rnd, (text.take endPos).drop e) :: segmentsAux text tlen rest

/-- The `(round number, block)` pairs of the run, in document order. -/
def segments (text : List Char) : List (Nat × List Char) :=
  segmentsAux text text.length (findMarkers text)

/-- One round's work: blank the table-header phrase, find the candidates,
run the extraction loop. -/
def processRound (rnd : Nat) (b : List Char) : Except RunError (List Fixture) :=
  collectCandidates rnd (findFixtures (stripHeader b))

/-- All rounds' work, fixtures appended in document order. -/
def processAll : List (Nat × List Char) → Except RunError (List Fixture)
  | [] => .ok []
  | (r, b) :: rest =>
    match processRound r b with
    | .error e => .error e
    | .ok fs =>
      match processAll rest with
      | .error e => .error e
      | .ok more => .ok (fs ++ more)

/-- `main` of the script from the extracted page text onwards: raise when no
round marker is found, otherwise extract every round and assemble the
payload. `.ok` means the snapshot file is written; `.error` means the run
aborts with no output. -/
def main (text : List Char) : Except RunError Payload :=
  if findMarkers text = [] then .error .noRoundsFound
  else
    match processAll (segments text) with
    | .error e => .error e
    | .ok fs => .ok ⟨fs.length, fs⟩

/-- The name filters of the extraction loop, as one predicate: both cleaned
names non-empty, and the cleaned home name does not start (lowercased) with
a header label. -/
def filtersPass (c : Candidate) : Bool :=
  !((clean c.home).isEmpty || (clean c.away).isEmpty) &&
    !startsWithAnyHeader ((clean c.home).map lowerChar)

/-- The discard condition of the extraction loop: a candidate is silently
skipped exactly when a cleaned name is empty or the cleaned home name starts
(lowercased) with a header label. -/
def discardCond (c : Candidate) : Bool :=
  ((clean c.home).isEmpty || (clean c.away).isEmpty) ||
    startsWithAnyHeader ((clean c.home).map lowerChar)

/-- The derived-field invariant every emitted fixture satisfies: with a
score, status is `played` and the winner is the home name when the home
score is larger, the away name otherwise; without one, status is
`scheduled` and there is no winner. -/
def FixtureInv (f : Fixture) : Prop :=
  match f.score with
  | some s => f.status = playedStr ∧ f.winner = some (if s.home > s.away then f.home else f.away)
  | none => f.status = scheduledStr ∧ f.winner = none

/-- Page text of the spec's concrete text-variant scenario: the five lines
inside a round-5 segment. -/
def t4 : List Char := lit "#### 5 kolejka\nTeam A\nTeam B\n23.12/ 17:30\nPolsat Sport\n85:79"

/-- The one fixture the scenario text yields. -/
def f4 : Fixture :=
  ⟨lit "05-2312-TeamA-TeamB", 5, lit "Team A", lit "Team B",
    lit "2025-12-23T17:30:00+01:00", some (lit "Polsat Sport"), playedStr,
    some ⟨85, 79⟩, some (lit "Team A")⟩

/-- The payload of the scenario text. -/
def p4 : Payload := ⟨1, [f4]⟩

/-- Page text whose one fixture ends in a drawn score. -/
def tTie : List Char := lit "#### 1 kolejka\nTeam A\nTeam B\n23.12/ 17:30\n80:80"

/-- The fixture the drawn-score text yields: the winner is the away name. -/
def fTie : Fixture :=
  ⟨lit "01-2312-TeamA-TeamB", 1, lit "Team A", lit "Team B",
    lit "2025-12-23T17:30:00+01:00", none, playedStr, some ⟨80, 80⟩,
    some (lit "Team B")⟩

/-- The payload of the drawn-score text. -/
def pTie : Payload := ⟨1, [fTie]⟩

/-- Page text whose one candidate carries the impossible date `31.02`. -/
def tBadDate : List Char := lit "#### 1 kolejka\nTeam A\nTeam B\n31.02/ 17:30"

/-- The round-1 block of `tBadDate`. -/
def bBadDate : List Char := lit "\nTeam A\nTeam B\n31.02/ 17:30"

/-- The candidate the `31.02` block yields. -/
def cBadDate : Candidate :=
  ⟨lit "Team A", lit "Team B", lit "31.02", lit "17:30", []⟩

/-- Page text with no round marker at all. -/
def tNoMarker : List Char := lit "hello world"

/-- Page text with one round marker and no fixture candidate. -/
def tEmptyRound : List Char := lit "#### 3 kolejka\nnothing here"

/-- Page text with one round marker whose one candidate carries the
impossible date `31.04`. -/
def tBadDate2 : List Char := lit "#### 2 kolejka\nTeam A\nTeam B\n31.04/ 17:30"

/-- Page text with two fixtures whose home names differ only in internal
spacing; twelve filler lines keep the first match's trailing window from
swallowing the second fixture. -/
def t8 : List Char :=
  lit "#### 1 kolejka\nTeam AB\nTeam X\n05.10/ 18:00\nqq\nqq\nqq\nqq\nqq\nqq\nqq\nqq\nqq\nqq\nqq\nqq\nTeam A B\nTeam X\n05.10/ 18:00"

/-- The first fixture of `t8`. -/
def f8a : Fixture :=
  ⟨lit "01-0510-TeamAB-TeamX", 1, lit "Team AB", lit "Team X",
    lit "2025-10-05T18:00:00+01:00", none, scheduledStr, none, none⟩

/-- The second fixture of `t8`: a different home name, the same identifier. -/
def f8b : Fixture :=
  ⟨lit "01-0510-TeamAB-TeamX", 1, lit "Team A B", lit "Team X",
    lit "2025-10-05T18:00:00+01:00", none, scheduledStr, none, none⟩

/-- Page text whose one candidate has the header label `Gospodarz` as its
away name. -/
def tC9 : List Char := lit "#### 1 kolejka\nTeam A\nGospodarz\n23.12/ 17:30"

/-- The fixture the `Gospodarz`-away text yields: it is emitted, not
discarded. -/
def fC9 : Fixture :=
  ⟨lit "01-2312-TeamA-Gospodarz", 1, lit "Team A", lit "Gospodarz",
    lit "2025-12-23T17:30:00+01:00", none, scheduledStr, none, none⟩

/-- Page text with one scheduled fixture (no broadcaster, no score). -/
def tSched : List Char := lit "#### 7 kolejka\nTeam E\nTeam F\n05.10/ 12:00"

/-- The fixture the scheduled-only text yields. -/
def fSched : Fixture :=
  ⟨lit "07-0510-TeamE-TeamF", 7, lit "Team E", lit "Team F",
    lit "2025-10-05T12:00:00+01:00", none, scheduledStr, none, none⟩

/-- The payload of the scheduled-only text. -/
def pSched : Payload := ⟨1, [fSched]⟩

/-- A candidate whose home line is a header-label remnant. -/
def cHdr : Candidate :=
  ⟨lit "Gospodarz X", lit "Team B", lit "23.12", lit "17:30", []⟩

/-- C4: on a round-5 segment whose lines are `Team A`, `Team B`,
`23.12/ 17:30`, `Polsat Sport`, `85:79`, extraction yields exactly one
fixture with round 5, the two names, the December-23 start at 17:30 in the
inferred year with the `+01:00` offset, the broadcaster, the 85:79 score,
status `played` and winner `Team A`. -/
theorem scenario_text_variant :
    main t4 = .ok ⟨1, [f4]⟩ ∧ f4.round = 5 ∧ f4.home = lit "Team A" ∧
    f4.away = lit "Team B" ∧ f4.start = renderIso (infer_year 12) 12 23 17 30 ∧
    f4.start = lit "2025-12-23T17:30:00+01:00" ∧ f4.tv = some (lit "Polsat Sport") ∧
    f4.score = some ⟨85, 79⟩ ∧ f4.status = playedStr ∧ f4.winner = some (lit "Team A") :=
  ⟨rfl, rfl, rfl, rfl, rfl, rfl, rfl, rfl, rfl, rfl⟩

/-- C1 counterexample: the drawn-score text is extracted into one fixture
whose score is 80:80 and whose winner is the away name `Team B` — the
winner is not absent on a tie. -/
theorem tie_winner_is_away :
    main tTie = .ok ⟨1, [fTie]⟩ ∧ fTie.score = some ⟨80, 80⟩ ∧
    fTie.winner = some (lit "Team B") ∧ fTie.winner ≠ none :=
  ⟨rfl, rfl, rfl, by decide⟩

/-- C2 counterexample: the `31.02` text contains one round marker and one
candidate that passes the name filters but whose date `datetime` rejects;
the whole run aborts with a `ValueError` and produces no output. -/
theorem invalid_date_aborts :
    (1, bBadDate) ∈ segments tBadDate ∧
    cBadDate ∈ findFixtures (stripHeader bBadDate) ∧
    filtersPass cBadDate = true ∧
    isOkE (iso_start cBadDate.ddmm cBadDate.hhmm) = false ∧
    main tBadDate = .error .valueError :=
  ⟨by decide, by decide, by decide, rfl, rfl⟩

/-- C3 counterexample: the `31.04` text contains a round marker, yet the
run aborts with a `ValueError` and no snapshot is produced. -/
theorem marker_yet_no_snapshot :
    findMarkers tBadDate2 ≠ [] ∧ main tBadDate2 = .error .valueError :=
  ⟨by decide, rfl⟩

/-- C6 counterexample: for month 9 — at or past the July boundary — the
year inference returns 2025, the season's earlier calendar year, not the
later one. -/
theorem infer_year_september_is_earlier :
    infer_year 9 = seasonEarlierYear ∧ infer_year 9 ≠ seasonLaterYear := by decide

/-- C6 amended: the season-year inference returns the earlier season year
(2025) for months at or past the July boundary, and the later season year
(2026) for months before it. -/
theorem infer_year_boundary (m : Nat) :
    (7 ≤ m → infer_year m = seasonEarlierYear) ∧
    (m < 7 → infer_year m = seasonLaterYear) := by
  refine ⟨fun h => ?_, fun h => ?_⟩ <;>
    simp [infer_year, seasonEarlierYear, seasonLaterYear, h]

/-- Evaluation of the amended year-inference rule at the months 9 and 3. -/
theorem infer_year_boundary_check :
    infer_year 9 = seasonEarlierYear ∧ infer_year 3 = seasonLaterYear :=
  ⟨(infer_year_boundary 9).1 (by decide), (infer_year_boundary 3).2 (by decide)⟩

/-- C7: with the July season boundary, month 9 (September) infers the
earlier season year and month 3 (March) infers the later season year. -/
theorem infer_year_examples :
    infer_year 9 = seasonEarlierYear ∧ infer_year 3 = seasonLaterYear := by decide

/-- C8 counterexample: one snapshot holds two distinct fixtures — their
home names differ — with identical derived identifiers. -/
theorem id_collision :
    main t8 = .ok ⟨2, [f8a, f8b]⟩ ∧ f8a ≠ f8b ∧ f8a.home ≠ f8b.home ∧
    f8a.id = f8b.id :=
  ⟨rfl, by decide, by decide, rfl⟩

/-- C9 counterexample: a candidate whose away name is the header label
`Gospodarz` is not discarded — the fixture is emitted. -/
theorem header_away_is_emitted :
    main tC9 = .ok ⟨1, [fC9]⟩ ∧ fC9.away = lit "Gospodarz" ∧
    startsWithAnyHeader (fC9.away.map lowerChar) = true :=
  ⟨rfl, rfl, by decide⟩

/-- An emitted fixture out of one candidate satisfies the derived-field
invariant. -/
theorem fixtureInv_processCandidate {r : Nat} {c : Candidate} {f : Fixture}
    (h : processCandidate r c = .ok (some f)) : FixtureInv f := by
  simp only [processCandidate] at h
  by_cases h1 : ((clean c.home).isEmpty || (clean c.away).isEmpty) = true
  · rw [if_pos h1] at h; exact absurd h (by simp)
  · rw [if_neg h1] at h
    by_cases h2 : startsWithAnyHeader ((clean c.home).map lowerChar) = true
    · rw [if_pos h2] at h; exact absurd h (by simp)
    · rw [if_neg h2] at h
      cases hi : iso_start c.ddmm c.hhmm with
      | error e => rw [hi] at h; exact absurd h (by simp)
      | ok startIso =>
        rw [hi] at h
        simp only [Except.ok.injEq, Option.some.injEq] at h
        subst h
        cases hs : parse_score c.tail with
        | none => simp [FixtureInv]
        | some s => simp [FixtureInv]

/-- Every fixture the per-round extraction loop returns satisfies the
derived-field invariant. -/
theorem fixtureInv_collect {r : Nat} {cs : List Candidate} {fs : List Fixture}
    {f : Fixture} (h : collectCandidates r cs = .ok fs) (hf : f ∈ fs) :
    FixtureInv f := by
  induction cs generalizing fs with
  | nil =>
    simp only [collectCandidates, Except.ok.injEq] at h
    subst h; cases hf
  | cons c cs ih =>
    rw [collectCandidates] at h
    cases hpc : processCandidate r c with
    | error e => rw [hpc] at h; exact absurd h (by simp)
    | ok o =>
      rw [hpc] at h
      cases o with
      | none => exact ih h hf
      | some g =>
        cases hrest : collectCandidates r cs with
        | error e => rw [hrest] at h; exact absurd h (by simp)
        | ok fs' =>
          rw [hrest] at h
          simp only [Except.ok.injEq] at h
          subst h
          rcases List.mem_cons.mp hf with h1 | h1
          · subst h1; exact fixtureInv_processCandidate hpc
          · exact ih hrest h1

/-- Every fixture the whole extraction returns satisfies the derived-field
invariant. -/
theorem fixtureInv_processAll {segs : List (Nat × List Char)} {fs : List Fixture}
    {f : Fixture} (h : processAll segs = .ok fs) (hf : f ∈ fs) : FixtureInv f := by
  induction segs generalizing fs with
  | nil =>
    simp only [processAll, Except.ok.injEq] at h
    subst h; cases hf
  | cons rb rest ih =>
    obtain ⟨r, b⟩ := rb
    rw [processAll] at h
    cases hr : processRound r b with
    | error e => rw [hr] at h; exact absurd h (by simp)
    | ok fs1 =>
      rw [hr] at h
      cases ha : processAll rest with
      | error e => rw [ha] at h; exact absurd h (by simp)
      | ok fs2 =>
        rw [ha] at h
        simp only [Except.ok.injEq] at h
        subst h
        rcases List.mem_append.mp hf with h1 | h1
        · exact fixtureInv_collect hr h1
        · exact ih ha h1

/-- Every fixture of an emitted snapshot satisfies the derived-field
invariant. -/
theorem fixtureInv_main {t : List Char} {p : Payload} {f : Fixture}
    (h : main t = .ok p) (hf : f ∈ p.matches') : FixtureInv f := by
  unfold main at h
  split at h
  · exact absurd h (by simp)
  · cases ha : processAll (segments t) with
    | error e => rw [ha] at h; exact absurd h (by simp)
    | ok fs =>
      rw [ha] at h
      simp only [Except.ok.injEq] at h
      subst h
      exact fixtureInv_processAll ha hf

/-- C1 amended: for every emitted fixture with a score, the winner is the
home name when the home score is larger and the away name otherwise
(including a drawn score); for every emitted fixture without a score, the
winner is absent. -/
theorem winner_of_emitted (t : List Char) (p : Payload) (f : Fixture)
    (hm : main t = .ok p) (hf : f ∈ p.matches') :
    (∀ s : Score, f.score = some s →
      f.winner = some (if s.home > s.away then f.home else f.away)) ∧
    (f.score = none → f.winner = none) := by
  have hinv := fixtureInv_main hm hf
  unfold FixtureInv at hinv
  constructor
  · intro s hs; rw [hs] at hinv; exact hinv.2
  · intro hs; rw [hs] at hinv; exact hinv.2

/-- Evaluation of the amended winner rule on the drawn-score fixture and on
a scoreless fixture. -/
theorem winner_of_emitted_check :
    fTie.winner = some (if (80 : Nat) > 80 then fTie.home else fTie.away) ∧
    fSched.winner = none :=
  ⟨(winner_of_emitted tTie pTie fTie rfl (by decide)).1 ⟨80, 80⟩ rfl,
   (winner_of_emitted tSched pSched fSched rfl (by decide)).2 rfl⟩

/-- C5: for every fixture of an emitted snapshot, the status is `played`
exactly when a score is present, and the status takes no value other than
`played` or `scheduled`. -/
theorem status_iff_score (t : List Char) (p : Payload) (f : Fixture)
    (hm : main t = .ok p) (hf : f ∈ p.matches') :
    (f.status = playedStr ↔ f.score ≠ none) ∧
    (f.status = playedStr ∨ f.status = scheduledStr) := by
  have hinv := fixtureInv_main hm hf
  unfold FixtureInv at hinv
  cases hs : f.score with
  | none =>
    rw [hs] at hinv
    exact ⟨⟨fun hp => absurd (hinv.1.symm.trans hp) (by decide),
      fun hn => absurd rfl hn⟩, Or.inr hinv.1⟩
  | some s =>
    rw [hs] at hinv
    exact ⟨⟨fun _ => by simp, fun _ => hinv.1⟩, Or.inl hinv.1⟩

/-- Evaluation of the status rule on a played and on a scheduled fixture. -/
theorem status_iff_score_check :
    f4.status = playedStr ∧ fSched.status = scheduledStr :=
  ⟨((status_iff_score t4 p4 f4 rfl (by decide)).1).mpr (by decide),
   ((status_iff_score tSched pSched fSched rfl (by decide)).2).resolve_left
     (fun h => ((status_iff_score tSched pSched fSched rfl (by decide)).1).mp h rfl)⟩

/-- The only error `iso_start` can raise is the `ValueError`. -/
theorem iso_start_error {d h : List Char} {e : RunError}
    (he : iso_start d h = .error e) : e = .valueError := by
  simp only [iso_start] at he
  split at he
  · exact absurd he (by simp)
  · exact (Except.error.inj he).symm

/-- A candidate that passes the name filters but whose date `datetime`
rejects makes the per-candidate body raise the `ValueError`. -/
theorem processCandidate_raises {r : Nat} {c : Candidate}
    (hf : filtersPass c = true) (hd : isOkE (iso_start c.ddmm c.hhmm) = false) :
    processCandidate r c = .error .valueError := by
  simp only [filtersPass, Bool.and_eq_true, Bool.not_eq_true'] at hf
  obtain ⟨h1, h2⟩ := hf
  simp only [processCandidate]
  rw [if_neg (by simp [h1]), if_neg (by simp [h2])]
  cases hi : iso_start c.ddmm c.hhmm with
  | error e => have he := iso_start_error hi; subst he; rfl
  | ok s => rw [hi] at hd; exact absurd hd (by simp [isOkE])

/-- One raising candidate makes the whole per-round loop raise. -/
theorem collect_raises {r : Nat} {cs : List Candidate} {c : Candidate}
    (hc : c ∈ cs) (hf : filtersPass c = true)
    (hd : isOkE (iso_start c.ddmm c.hhmm) = false) :
    ∃ e, collectCandidates r cs = .error e := by
  induction cs with
  | nil => cases hc
  | cons c0 cs ih =>
    rcases List.mem_cons.mp hc with h | h
    · subst h
      exact ⟨.valueError, by simp [collectCandidates, processCandidate_raises hf hd]⟩
    · cases hpc : processCandidate r c0 with
      | error e => exact ⟨e, by simp [collectCandidates, hpc]⟩
      | ok o =>
        obtain ⟨e, he⟩ := ih h
        cases o with
        | none => exact ⟨e, by simp [collectCandidates, hpc, he]⟩
        | some f => exact ⟨e, by simp [collectCandidates, hpc, he]⟩

/-- One raising round makes the whole extraction raise. -/
theorem processAll_raises {segs : List (Nat × List Char)} {r : Nat} {b : List Char}
    (hseg : (r, b) ∈ segs) (he : ∃ e, processRound r b = .error e) :
    ∃ e, processAll segs = .error e := by
  induction segs with
  | nil => cases hseg
  | cons rb rest ih =>
    obtain ⟨r0, b0⟩ := rb
    rcases List.mem_cons.mp hseg with h | h
    · obtain ⟨e, he'⟩ := he
      obtain ⟨h1, h2⟩ := Prod.mk.injEq .. ▸ h
      subst h1; subst h2
      exact ⟨e, by simp [processAll, he']⟩
    · cases hr : processRound r0 b0 with
      | error e => exact ⟨e, by simp [processAll, hr]⟩
      | ok fs =>
        obtain ⟨e, he2⟩ := ih h
        exact ⟨e, by simp [processAll, hr, he2]⟩

/-- C2 amended: a fixture candidate that passes the name filters but whose
date/time token is rejected by `datetime` (for example the impossible
calendar date `31.02`) does not merely get skipped — the uncaught
`ValueError` aborts the whole run and no output is produced. Date/time
text not matching the `DD.MM/ HH:MM` shape never forms a candidate at all
and is skipped silently. -/
theorem invalid_date_fatal (t : List Char) (r : Nat) (b : List Char) (c : Candidate)
    (hseg : (r, b) ∈ segments t) (hc : c ∈ findFixtures (stripHeader b))
    (hf : filtersPass c = true) (hd : isOkE (iso_start c.ddmm c.hhmm) = false) :
    ∃ e, main t = .error e := by
  by_cases hm : findMarkers t = []
  · exact ⟨.noRoundsFound, by simp [main, hm]⟩
  · obtain ⟨e, he⟩ := processAll_raises hseg (collect_raises hc hf hd)
    exact ⟨e, by simp [main, hm, he]⟩

/-- Evaluation of the fatal-date rule on the `31.02` text. -/
theorem invalid_date_fatal_check : ∃ e, main tBadDate = .error e :=
  invalid_date_fatal tBadDate 1 bBadDate cBadDate (by decide) (by decide)
    (by decide) (by decide)

/-- C3 amended: with zero round markers the run raises the distinct
no-rounds error and produces no output; with at least one marker, whenever
the per-round extraction completes without raising, a snapshot is written —
even one with zero fixtures. -/
theorem no_rounds_vs_snapshot (t : List Char) :
    (findMarkers t = [] → main t = .error .noRoundsFound) ∧
    (∀ fs : List Fixture, findMarkers t ≠ [] →
      processAll (segments t) = .ok fs → main t = .ok ⟨fs.length, fs⟩) := by
  constructor
  · intro h; simp [main, h]
  · intro fs h hfs; simp [main, h, hfs]

/-- Evaluation of the no-rounds rule: a marker-free text raises, a text
with one marker and no candidates still yields an (empty) snapshot. -/
theorem no_rounds_vs_snapshot_check :
    main tNoMarker = .error .noRoundsFound ∧ main tEmptyRound = .ok ⟨0, []⟩ :=
  ⟨(no_rounds_vs_snapshot tNoMarker).1 (by decide),
   (no_rounds_vs_snapshot tEmptyRound).2 [] (by decide) rfl⟩

/-- C9 amended: a text-variant candidate is discarded silently — the loop
body yields nothing — exactly when a cleaned participant name is empty or
the cleaned home name starts (case-insensitively) with one of the header
labels `gospodarz`/`gość`/`gosc`; a header label in the away name alone
does not discard the candidate. -/
theorem discard_characterization (r : Nat) (c : Candidate) :
    processCandidate r c = .ok none ↔ discardCond c = true := by
  simp only [processCandidate, discardCond]
  by_cases h1 : ((clean c.home).isEmpty || (clean c.away).isEmpty) = true
  · simp [h1]
  · rw [Bool.not_eq_true] at h1
    by_cases h2 : startsWithAnyHeader ((clean c.home).map lowerChar) = true
    · simp [h1, h2]
    · rw [Bool.not_eq_true] at h2
      simp only [h1, h2, Bool.or_false, Bool.false_eq_true, if_false]
      cases hi : iso_start c.ddmm c.hhmm with
      | error e => simp
      | ok s => simp

/-- Evaluation of the discard rule on a candidate whose home line is a
header remnant. -/
theorem discard_characterization_check : processCandidate 1 cHdr = .ok none :=
  (discard_characterization 1 cHdr).mpr (by decide)

/-- The digit characters round-trip through their values. -/
theorem digitVal_digitChar {k : Nat} (h : k < 10) : digitVal (digitChar k) = k := by
  interval_cases k <;> decide

/-- The digit characters are digits. -/
theorem isDigitC_digitChar {k : Nat} (h : k < 10) : isDigitC (digitChar k) = true := by
  interval_cases k <;> decide

/-- Appending one digit multiplies the value by ten and adds the digit. -/
theorem digitsVal_append (l : List Char) (c : Char) :
    digitsVal (l ++ [c]) = 10 * digitsVal l + digitVal c := by
  simp [digitsVal, List.foldl_append]

/-- The fuelled decimal rendering is a right inverse of the digit value, as
long as the fuel exceeds the number. -/
theorem digitsVal_natDigitsAux {fuel n : Nat} (h : n < fuel) :
    digitsVal (natDigitsAux fuel n) = n := by
  induction fuel generalizing n with
  | zero => omega
  | succ fuel ih =>
    rw [natDigitsAux]
    by_cases h10 : n < 10
    · simp [h10, digitsVal, digitVal_digitChar h10]
    · rw [if_neg h10, digitsVal_append, ih (by omega),
        digitVal_digitChar (Nat.mod_lt n (by omega))]
      omega

/-- The decimal rendering is a right inverse of the digit value. -/
theorem digitsVal_natDigits (n : Nat) : digitsVal (natDigits n) = n :=
  digitsVal_natDigitsAux (Nat.lt_succ_self n)

/-- The zero-padded rendering is a right inverse of the digit value. -/
theorem digitsVal_pad2 (n : Nat) : digitsVal (pad2 n) = n := by
  rw [pad2]
  by_cases h : n < 10
  · have h0 : digitVal '0' = 0 := by decide
    simp [h, digitsVal, h0, digitVal_digitChar h]
  · simp [h, digitsVal_natDigits]

/-- The zero-padded rendering is injective. -/
theorem pad2_injective {a b : Nat} (h : pad2 a = pad2 b) : a = b := by
  have h2 := congrArg digitsVal h
  rwa [digitsVal_pad2, digitsVal_pad2] at h2

/-- The fuelled decimal rendering produces only digits. -/
theorem natDigitsAux_digits (fuel n : Nat) : (natDigitsAux fuel n).all isDigitC = true := by
  induction fuel generalizing n with
  | zero => rfl
  | succ fuel ih =>
    rw [natDigitsAux]
    by_cases h : n < 10
    · simp [h, isDigitC_digitChar h]
    · simp [h, List.all_append, ih, isDigitC_digitChar (Nat.mod_lt n (by omega))]

/-- The zero-padded rendering produces only digits. -/
theorem pad2_digits (n : Nat) : (pad2 n).all isDigitC = true := by
  rw [pad2]
  by_cases h : n < 10
  · simp [h, isDigitC_digitChar h]
    decide
  · simp [h, natDigits, natDigitsAux_digits]

/-- A string of digits contains no dash. -/
theorem no_dash_of_digits {l : List Char} (h : l.all isDigitC = true) : '-' ∉ l := by
  intro hm
  exact absurd (List.all_eq_true.mp h _ hm) (by decide)

/-- A sanitized identifier fragment contains no dash. -/
theorem no_dash_safe_id_part (s : List Char) : '-' ∉ safe_id_part s := by
  intro hm
  have h1 : '-' ∈ s.filter isWordChar := List.take_subset _ _ hm
  exact absurd (List.mem_filter.mp h1).2 (by decide)

/-- Two dash-joined strings agree componentwise when the left components
are dash-free. -/
theorem dash_split {x1 x2 y1 y2 : List Char} (h1 : '-' ∉ x1) (h2 : '-' ∉ x2)
    (h : x1 ++ '-' :: y1 = x2 ++ '-' :: y2) : x1 = x2 ∧ y1 = y2 := by
  induction x1 generalizing x2 with
  | nil =>
    cases x2 with
    | nil => simpa using h
    | cons c2 x2' =>
      injection h with hc _
      subst hc
      exact absurd (List.mem_cons_self _ _) h2
  | cons c1 x1' ih =>
    cases x2 with
    | nil =>
      injection h with hc _
      subst hc
      exact absurd (List.mem_cons_self _ _) h1
    | cons c2 x2' =>
      injection h with hc ht
      subst hc
      have h1' : '-' ∉ x1' := fun hm => h1 (List.mem_cons_of_mem _ hm)
      have h2' : '-' ∉ x2' := fun hm => h2 (List.mem_cons_of_mem _ hm)
      obtain ⟨hx, hy⟩ := ih h1' h2' ht
      exact ⟨by rw [hx], hy⟩

/-- C8 amended: two derived identifiers differ whenever their sanitized
components differ — the round number, the digit-only date key, or either
sanitized, truncated name fragment. (Distinct raw names alone do not
suffice: names agreeing on their sanitized 14-character fragments collide,
see the counterexample.) -/
theorem match_id_injective (r1 r2 : Nat) (d1 d2 h1 h2 a1 a2 : List Char)
    (hd1 : (removeDots d1).all isDigitC = true)
    (hd2 : (removeDots d2).all isDigitC = true)
    (hne : ¬(r1 = r2 ∧ removeDots d1 = removeDots d2 ∧
      safe_id_part h1 = safe_id_part h2 ∧ safe_id_part a1 = safe_id_part a2)) :
    match_id r1 d1 h1 a1 ≠ match_id r2 d2 h2 a2 := by
  intro heq
  rw [match_id, match_id] at heq
  obtain ⟨e1, rest1⟩ := dash_split (no_dash_of_digits (pad2_digits r1))
    (no_dash_of_digits (pad2_digits r2)) heq
  obtain ⟨e2, rest2⟩ := dash_split (no_dash_of_digits hd1) (no_dash_of_digits hd2) rest1
  obtain ⟨e3, e4⟩ := dash_split (no_dash_safe_id_part h1) (no_dash_safe_id_part h2) rest2
  exact hne ⟨pad2_injective e1, e2, e3, e4⟩

/-- Evaluation of the amended identifier rule: distinct rounds give
distinct identifiers. -/
theorem match_id_injective_check :
    match_id 1 (lit "05.10") (lit "Team AB") (lit "Team X") ≠
    match_id 2 (lit "05.10") (lit "Team AB") (lit "Team X") :=
  match_id_injective 1 2 (lit "05.10") (lit "05.10") (lit "Team AB")
    (lit "Team AB") (lit "Team X") (lit "Team X") (by decide) (by decide)
    (by decide)

/-- Dropping leading whitespace leaves a whitespace-free head. -/
theorem headNotWS_dropWhile (l : List Char) : headNotWS (l.dropWhile isWS) = true := by
  induction l with
  | nil => rfl
  | cons c cs ih =>
    by_cases h : isWS c = true
    · simpa [List.dropWhile_cons, h] using ih
    · simp only [Bool.not_eq_true] at h
      simp [List.dropWhile_cons, h, headNotWS]

/-- A prefix of a list with a whitespace-free head has one too. -/
theorem headNotWS_of_append {p t m : List Char} (h : p ++ t = m)
    (hm : headNotWS m = true) : headNotWS p = true := by
  cases p with
  | nil => rfl
  | cons c p' => subst h; simpa [headNotWS] using hm

/-- The stripped string has no leading whitespace. -/
theorem strip_headNotWS (l : List Char) : headNotWS (strip l) = true := by
  obtain ⟨t, ht⟩ := List.dropWhile_suffix (l := (l.dropWhile isWS).reverse) (p := isWS)
  have happ : strip l ++ t.reverse = l.dropWhile isWS := by
    have h2 := congrArg List.reverse ht
    simpa [strip, List.reverse_append] using h2
  exact headNotWS_of_append happ (headNotWS_dropWhile l)

/-- The stripped string has no trailing whitespace. -/
theorem strip_lastNotWS (l : List Char) : lastNotWS (strip l) = true := by
  rw [lastNotWS, strip, List.reverse_reverse]
  exact headNotWS_dropWhile _

/-- Inside a whitespace run, the collapse output starts with a non-space. -/
theorem collapse_true_head (l : List Char) : headNotWS (collapseAux true l) = true := by
  induction l with
  | nil => rfl
  | cons c cs ih =>
    by_cases h : isWS c = true
    · simpa [collapseAux, h] using ih
    · simp only [Bool.not_eq_true] at h
      simp [collapseAux, h, headNotWS]

/-- Collapsing preserves a whitespace-free head. -/
theorem collapse_headNotWS {l : List Char} (h : headNotWS l = true) :
    headNotWS (collapseAux false l) = true := by
  cases l with
  | nil => rfl
  | cons c cs =>
    have hc : isWS c = false := by simpa [headNotWS] using h
    simp [collapseAux, hc, headNotWS]

/-- A string whose last character is not whitespace contains a non-space. -/
theorem any_not_ws_of_lastNotWS {l : List Char} (hne : l ≠ [])
    (h : lastNotWS l = true) : l.any (fun c => !isWS c) = true := by
  rw [lastNotWS] at h
  cases he : l.reverse with
  | nil => exact absurd (by simpa using he) hne
  | cons e r =>
    rw [he] at h
    have hmem : e ∈ l := by
      have h3 : e ∈ l.reverse := he ▸ List.mem_cons_self e r
      simpa using h3
    rw [List.any_eq_true]
    exact ⟨e, hmem, by simpa [headNotWS] using h⟩

/-- The collapse of a string containing a non-space is non-empty. -/
theorem collapse_ne_nil {l : List Char} (h : l.any (fun c => !isWS c) = true) :
    ∀ b, collapseAux b l ≠ [] := by
  induction l with
  | nil => simp at h
  | cons c cs ih =>
    intro b
    by_cases hc : isWS c = true
    · have h' : cs.any (fun c => !isWS c) = true := by
        simpa [List.any_cons, hc] using h
      cases b with
      | true => simpa [collapseAux, hc] using ih h' true
      | false => simp [collapseAux, hc]
    · simp only [Bool.not_eq_true] at hc
      simp [collapseAux, hc]

/-- Consing onto a non-empty string does not change its last character. -/
theorem lastNotWS_cons {a : Char} {l : List Char} (h : l ≠ []) :
    lastNotWS (a :: l) = lastNotWS l := by
  rw [lastNotWS, lastNotWS, List.reverse_cons]
  cases he : l.reverse with
  | nil => exact absurd (by simpa using he) h
  | cons e r => simp [headNotWS]

/-- Collapsing preserves a whitespace-free last character. -/
theorem collapse_lastNotWS {l : List Char} (h : lastNotWS l = true) :
    ∀ b, lastNotWS (collapseAux b l) = true := by
  induction l with
  | nil => intro b; rfl
  | cons c cs ih =>
    intro b
    cases hcs : cs with
    | nil =>
      subst hcs
      have hc : isWS c = false := by simpa [lastNotWS, headNotWS] using h
      cases b <;> simp [collapseAux, hc, lastNotWS, headNotWS]
    | cons d cs' =>
      subst hcs
      have hlast : lastNotWS (d :: cs') = true := by
        rw [← lastNotWS_cons (a := c) (by simp)]
        exact h
      have hne := collapse_ne_nil (any_not_ws_of_lastNotWS (by simp) hlast)
      by_cases hc : isWS c = true
      · cases b with
        | true =>
          have hout : collapseAux true (c :: d :: cs') = collapseAux true (d :: cs') := by
            simp [collapseAux, hc]
          rw [hout]; exact ih hlast true
        | false =>
          have hout : collapseAux false (c :: d :: cs') = ' ' :: collapseAux true (d :: cs') := by
            simp [collapseAux, hc]
          rw [hout, lastNotWS_cons (hne true)]
          exact ih hlast true
      · simp only [Bool.not_eq_true] at hc
        have hout : collapseAux b (c :: d :: cs') = c :: collapseAux false (d :: cs') := by
          simp [collapseAux, hc]
        rw [hout, lastNotWS_cons (hne false)]
        exact ih hlast false

/-- The collapse output never has two adjacent whitespace characters. -/
theorem collapse_noDoubleWS (l : List Char) : ∀ b, noDoubleWS (collapseAux b l) = true := by
  induction l with
  | nil => intro b; rfl
  | cons c cs ih =>
    intro b
    by_cases hc : isWS c = true
    · cases b with
      | true =>
        have hout : collapseAux true (c :: cs) = collapseAux true cs := by
          simp [collapseAux, hc]
        rw [hout]; exact ih true
      | false =>
        have hout : collapseAux false (c :: cs) = ' ' :: collapseAux true cs := by
          simp [collapseAux, hc]
        rw [hout]
        have hh := collapse_true_head cs
        cases hx : collapseAux true cs with
        | nil => rfl
        | cons x xs =>
          rw [hx] at hh
          have hx' : isWS x = false := by simpa [headNotWS] using hh
          have hrest := ih true
          rw [hx] at hrest
          simp [noDoubleWS, hx', hrest]
    · simp only [Bool.not_eq_true] at hc
      have hout : collapseAux b (c :: cs) = c :: collapseAux false cs := by
        simp [collapseAux, hc]
      rw [hout]
      cases hx : collapseAux false cs with
      | nil => rfl
      | cons x xs =>
        have hrest := ih false
        rw [hx] at hrest
        simp [noDoubleWS, hc, hrest]

/-- Every whitespace character of the collapse output is a plain space. -/
theorem collapse_onlySpaceWS (l : List Char) : ∀ b, onlySpaceWS (collapseAux b l) = true := by
  induction l with
  | nil => intro b; rfl
  | cons c cs ih =>
    intro b
    by_cases hc : isWS c = true
    · cases b with
      | true =>
        have hout : collapseAux true (c :: cs) = collapseAux true cs := by
          simp [collapseAux, hc]
        rw [hout]; exact ih true
      | false =>
        have hout : collapseAux false (c :: cs) = ' ' :: collapseAux true cs := by
          simp [collapseAux, hc]
        have h2 := ih true
        rw [hout, show onlySpaceWS (' ' :: collapseAux true cs) =
          ((!isWS ' ' || ' ' == ' ') && onlySpaceWS (collapseAux true cs)) from rfl, h2]
        decide
    · simp only [Bool.not_eq_true] at hc
      have hout : collapseAux b (c :: cs) = c :: collapseAux false cs := by
        simp [collapseAux, hc]
      have h2 := ih false
      rw [hout, show onlySpaceWS (c :: collapseAux false cs) =
        ((!isWS c || c == ' ') && onlySpaceWS (collapseAux false cs)) from rfl, h2, hc]
      simp

/-- Collapsing is the identity on a string whose whitespace is already
normal: single plain spaces only. -/
theorem collapse_id {l : List Char} (h1 : onlySpaceWS l = true)
    (h2 : noDoubleWS l = true) : collapseAux false l = l := by
  induction l with
  | nil => rfl
  | cons c cs ih =>
    by_cases hc : isWS c = true
    · have hsp : c = ' ' := by
        have hx := List.all_eq_true.mp h1 c (List.mem_cons_self c cs)
        have hx2 : (c == ' ') = true := by simpa [hc] using hx
        simpa using hx2
      cases cs with
      | nil => simp [collapseAux, hc, hsp]
      | cons d cs' =>
        simp only [noDoubleWS, Bool.and_eq_true] at h2
        have hd : isWS d = false := by simpa [hc] using h2.1
        have h1' : onlySpaceWS (d :: cs') = true := by
          have hx := h1
          rw [show onlySpaceWS (c :: d :: cs') =
            ((!isWS c || c == ' ') && onlySpaceWS (d :: cs')) from rfl,
            Bool.and_eq_true] at hx
          exact hx.2
        have hrec := ih h1' h2.2
        have hstep : collapseAux false (d :: cs') = d :: collapseAux false cs' := by
          simp [collapseAux, hd]
        rw [hstep] at hrec
        injection hrec with _ hrec'
        calc collapseAux false (c :: d :: cs')
            = ' ' :: collapseAux true (d :: cs') := by simp [collapseAux, hc]
          _ = ' ' :: d :: collapseAux false cs' := by simp [collapseAux, hd]
          _ = c :: d :: cs' := by rw [hrec', hsp]
    · simp only [Bool.not_eq_true] at hc
      have h1' : onlySpaceWS cs = true := by
        have hx := h1
        rw [show onlySpaceWS (c :: cs) =
          ((!isWS c || c == ' ') && onlySpaceWS cs) from rfl, Bool.and_eq_true] at hx
        exact hx.2
      have h2' : noDoubleWS cs = true := by
        cases cs with
        | nil => rfl
        | cons d cs' =>
          simp only [noDoubleWS, Bool.and_eq_true] at h2
          exact h2.2
      have hstep : collapseAux false (c :: cs) = c :: collapseAux false cs := by
        simp [collapseAux, hc]
      rw [hstep, ih h1' h2']

/-- Dropping leading whitespace is the identity when the head is not
whitespace. -/
theorem dropWhile_id {l : List Char} (h : headNotWS l = true) :
    l.dropWhile isWS = l := by
  cases l with
  | nil => rfl
  | cons c cs =>
    have hc : isWS c = false := by simpa [headNotWS] using h
    simp [List.dropWhile_cons, hc]

/-- Stripping is the identity when both edges are whitespace-free. -/
theorem strip_id {l : List Char} (h1 : headNotWS l = true)
    (h2 : lastNotWS l = true) : strip l = l := by
  rw [strip, dropWhile_id h1, dropWhile_id h2, List.reverse_reverse]

/-- C10: the whitespace normalization is idempotent, and its output has no
leading or trailing whitespace and no two adjacent whitespace characters. -/
theorem clean_idempotent (s : List Char) :
    clean (clean s) = clean s ∧ noEdgeWS (clean s) = true ∧
    noDoubleWS (clean s) = true := by
  have hh : headNotWS (clean s) = true := collapse_headNotWS (strip_headNotWS s)
  have hl : lastNotWS (clean s) = true := collapse_lastNotWS (strip_lastNotWS s) false
  have hd : noDoubleWS (clean s) = true := collapse_noDoubleWS (strip s) false
  have ho : onlySpaceWS (clean s) = true := collapse_onlySpaceWS (strip s) false
  refine ⟨?_, ?_, hd⟩
  · show collapseAux false (strip (clean s)) = clean s
    rw [strip_id hh hl]
    exact collapse_id ho hd
  · rw [noEdgeWS, hh, hl]; rfl

end PLK
